import Mathlib

/-!
Verification development for the ChartExtractor repository.

The definitions below are shallow embeddings of the Python source:

* `src/ChartExtractor/object_detection_models/onnx_yolov11_detection.py`
  (`batch_iou`, `non_max_suppression`, `scale_detections_back_to_input_size`,
  `detect`, `__init__`/`load_model`/`__call__`);
* `src/ChartExtractor/extraction/extraction.py`
  (`compute_tile_size`, `create_homography_matrix`,
  `assign_meaning_to_intraoperative_detections`).

Real (machine-float) arithmetic is embedded as exact rational arithmetic `ℚ`;
numpy arrays of box rows become lists of `PredRow` records.  Code of the
repository that is not available under `src/` (the `utilities.annots`,
`point_registration.homography` and downstream `extraction.*` helper modules)
is modelled from the specification; each such definition carries a doc comment
starting with `Modelled from the spec:`.
-/

namespace ChartExtractor

/-- One row of the `(n, 6)` prediction array handled by
`non_max_suppression`: `(x1, y1, x2, y2, conf, cls index)`
(see `postprocess_results`, which stacks exactly these six columns). -/
structure PredRow where
  x1 : ℚ
  y1 : ℚ
  x2 : ℚ
  y2 : ℚ
  conf : ℚ
  cls : ℚ
deriving DecidableEq, Inhabited

/-- `box_area = lambda box: (box[2] - box[0]) * (box[3] - box[1])` from `batch_iou`. -/
def box_area (r : PredRow) : ℚ :=
  (r.x2 - r.x1) * (r.y2 - r.y1)

/-- The intersection area of two boxes from `batch_iou`:
`np.prod(np.clip(bottom_right - top_left, a_min=0, a_max=None))` with
`top_left = max` of the two `(x1, y1)` corners and `bottom_right = min`
of the two `(x2, y2)` corners. -/
def inter_area (a b : PredRow) : ℚ :=
  max 0 (min a.x2 b.x2 - max a.x1 b.x1) * max 0 (min a.y2 b.y2 - max a.y1 b.y1)

/-- `batch_iou` for a single pair of rows:
`intersection_areas / (these_areas + those_areas - intersection_areas)`.
(Rational division is total; numpy instead produces `nan`/`inf` on a zero
denominator, and both make the `>` comparison in the suppression loop behave
identically for the nonnegative thresholds used by the code.) -/
def batch_iou (a b : PredRow) : ℚ :=
  inter_area a b / (box_area a + box_area b - inter_area a b)

/-- `np.flip(predictions[:, 4].argsort())`: the indices of the rows sorted by
ascending confidence and then reversed, i.e. sorted by descending confidence.
(numpy's default `argsort` leaves the order of tied keys unspecified; the
embedding fixes it as the stable ascending sort, then flips.) -/
def argsort_desc (confs : List ℚ) : List Nat :=
  (List.insertionSort (fun i j => confs.getD i 0 ≤ confs.getD j 0)
    (List.range confs.length)).reverse

/-- The boolean tested for the pair `(i, j)` inside the suppression loop:
`(iou > iou_threshold) & (categories == category)`, where the IoU matrix has
had `np.eye(rows)` subtracted from it (so the diagonal entry is lowered by 1). -/
def nms_condb (p : Nat → PredRow) (thr : ℚ) (i j : Nat) : Bool :=
  decide (batch_iou (p i) (p j) - (if i = j then 1 else 0) > thr) &&
    decide ((p j).cls = (p i).cls)

/-- One iteration of the suppression loop at row `i` (rows in sorted order):
if `keep[i]`, then `keep = keep & ~condition` for the row-`i` condition. -/
def nms_step (p : Nat → PredRow) (thr : ℚ) (keep : Nat → Bool) (i : Nat) :
    Nat → Bool :=
  if keep i then (fun j => keep j && !(nms_condb p thr i j)) else keep

/-- The keep mask over sorted row positions after the first `k` iterations of
the suppression loop, starting from `np.ones(rows, dtype=bool)`. -/
def nms_keep (p : Nat → PredRow) (thr : ℚ) : Nat → (Nat → Bool)
  | 0 => fun _ => true
  | k + 1 => nms_step p thr (nms_keep p thr k) k

/-- The sorted view of the prediction rows: `predictions = predictions[sort_index]`. -/
def sortedPred (ps : List PredRow) : Nat → PredRow :=
  fun k => ps.getD ((argsort_desc (ps.map PredRow.conf)).getD k 0) default

/-- `non_max_suppression(predictions, iou_threshold)` from
`onnx_yolov11_detection.py`: the boolean keep mask in the original row order
(`keep[sort_index.argsort()]` maps the mask computed on the sorted rows back
through the inverse permutation). -/
def non_max_suppression (ps : List PredRow) (thr : ℚ) : List Bool :=
  let si := argsort_desc (ps.map PredRow.conf)
  let keep := nms_keep (sortedPred ps) thr ps.length
  (List.range ps.length).map (fun i => keep (si.indexOf i))

/-- The sublist of rows that a mask keeps, in the original order
(`predictions[mask]` in numpy). -/
def keptRows (ps : List PredRow) (mask : List Bool) : List PredRow :=
  ((ps.zip mask).filter (fun x => x.2)).map Prod.fst

/-- `scale_detections_back_to_input_size(detections, original_im_width,
original_im_height)`: multiplies columns 0 and 2 (the x coordinates) by
`original_im_width / input_im_width` and columns 1 and 3 (the y coordinates)
by `original_im_height / input_im_height`.  The `input_im_*` attributes of the
detector object are passed explicitly here. -/
def scale_detections_back_to_input_size (dets : List PredRow)
    (original_im_width original_im_height input_im_width input_im_height : ℚ) :
    List PredRow :=
  let width_scalar := original_im_width / input_im_width
  let height_scalar := original_im_height / input_im_height
  dets.map (fun d =>
    { d with
      x1 := d.x1 * width_scalar
      y1 := d.y1 * height_scalar
      x2 := d.x2 * width_scalar
      y2 := d.y2 * height_scalar })

/-- The pixel grid of an image as read by `cv2.imread`/numpy:
`image.shape` is the tuple `(height, width, channels)`. -/
structure PyImage where
  height : Nat
  width : Nat
deriving DecidableEq, Inhabited

/-- `image.shape` of a colour image: `(height, width, 3)`. -/
def PyImage.shape (img : PyImage) : Nat × Nat × Nat :=
  (img.height, img.width, 3)

/-- The coordinate-rescaling slice of `OnnxYolov11Detection.detect`: the code
runs `original_im_width, original_im_height = image.shape[:2]` — so
`original_im_width` is bound to `image.shape[0]`, the image HEIGHT, and
`original_im_height` to `image.shape[1]`, the image WIDTH — and then calls
`scale_detections_back_to_input_size(detections, original_im_width,
original_im_height)` on the post-processed rows. -/
def detect_rescale (img : PyImage) (dets : List PredRow)
    (input_im_width input_im_height : ℚ) : List PredRow :=
  let original_im_width : ℚ := ((PyImage.shape img).1 : ℚ)
  let original_im_height : ℚ := ((PyImage.shape img).2.1 : ℚ)
  scale_detections_back_to_input_size dets original_im_width original_im_height
    input_im_width input_im_height

/-- Python exceptions that the embedded code can raise. -/
inductive PyErr where
  | keyError (k : String)
  | nameError (n : String)
  | valueError (msg : String)
  | geometryError
deriving DecidableEq

/-- The attribute state set up by `OnnxYolov11Detection.__init__`: it stores
the weights path and input resolution, sets `model_is_loaded = False`, and
loads the model at once unless `lazy_loading` is requested. -/
structure Yolo11State where
  model_weights_filepath : String
  input_im_width : Nat
  input_im_height : Nat
  model_is_loaded : Bool
deriving DecidableEq

/-- `load_model`: creates the inference session and sets
`self.model_is_loaded = True`. -/
def load_model (s : Yolo11State) : Yolo11State :=
  { s with model_is_loaded := true }

/-- `OnnxYolov11Detection.__init__(…, lazy_loading)`. -/
def yolo11_init (weights : String) (input_im_width input_im_height : Nat)
    (lazy_loading : Bool) : Yolo11State :=
  let s : Yolo11State :=
    { model_weights_filepath := weights
      input_im_width := input_im_width
      input_im_height := input_im_height
      model_is_loaded := false }
  if lazy_loading then s else load_model s

/-- The names a bare identifier inside `OnnxYolov11Detection.__call__` can
resolve to: the method's local names and the module-level globals of
`onnx_yolov11_detection.py` (its imports and the class name).  Python name
resolution for a bare identifier searches local, enclosing, module-global and
builtin scopes; instance attributes such as `self.model_is_loaded` are not
part of any of them. -/
def call_scope_names : List String :=
  ["self", "images", "confidence", "iou_threshold", "detections",
   "json", "Path", "Dict", "List", "Literal", "Tuple", "cv2", "np", "ort",
   "ObjectDetectionModel", "BoundingBox", "Detection",
   "non_maximum_suppression", "OnnxYolov11Detection"]

/-- Modelled from the spec: a `Point` of the `utilities.annots` module
(not included under `src/`) is a pair of real coordinates. -/
structure Point where
  x : ℚ
  y : ℚ
deriving DecidableEq, Inhabited

/-- Modelled from the spec and `tests/unit_tests/test_annotations.py`: a
`BoundingBox` (module `utilities.annots`, not included under `src/`)
carries a category string and left/top/right/bottom pixel coordinates; the
constructor argument order `(category, left, top, right, bottom)` is the one
the tests use. -/
structure BoundingBox where
  category : String
  left : ℚ
  top : ℚ
  right : ℚ
  bottom : ℚ
deriving DecidableEq, Inhabited

/-- Modelled from the spec: the derived `center` of a box is its midpoint
(the tests give `BoundingBox("Test", 0, 0, 1, 1).center == (0.5, 0.5)`). -/
def BoundingBox.center (bb : BoundingBox) : Point :=
  ⟨(bb.left + bb.right) / 2, (bb.top + bb.bottom) / 2⟩

/-- Modelled from the spec and `test_annotations.py`: `validate_box_values`,
run by the `BoundingBox` constructor.  A box with `left > right` or
`top > bottom` is a `ValueError`; a degenerate box (equal sides) is permitted
but produces `UserWarning`s (returned here as a list of warning messages). -/
def validate_box_values (left top right bottom : ℚ) :
    Except PyErr (List String) :=
  if left > right then
    Except.error (PyErr.valueError "box has its left side greater than its right side")
  else if top > bottom then
    Except.error (PyErr.valueError "box has its top side greater than its bottom side")
  else if left = right ∧ left = top ∧ left = bottom then
    Except.ok ["box's parameters are equal"]
  else
    Except.ok ((if left = right then ["box has its left side equals its right side"] else []) ++
      (if top = bottom then ["box has its top side equals its bottom side"] else []))

/-- Modelled from the spec: constructing a `BoundingBox` runs
`validate_box_values` and either raises or returns the box together with the
warnings it emitted. -/
def BoundingBox.make (category : String) (left top right bottom : ℚ) :
    Except PyErr (BoundingBox × List String) :=
  (validate_box_values left top right bottom).map
    (fun w => (⟨category, left, top, right, bottom⟩, w))

/-- Modelled from the spec: an annotation is either a `BoundingBox` or a
`Keypoint` (a point bound to a bounding box). -/
inductive Annot where
  | box (bb : BoundingBox)
  | keypoint (pt : Point) (bb : BoundingBox)
deriving DecidableEq, Inhabited

/-- The category of an annotation (`annotation.category` in the source; for a
keypoint the category lives on its bounding box). -/
def Annot.category : Annot → String
  | .box bb => bb.category
  | .keypoint _ bb => bb.category

/-- The center of an annotation's box (`annotation.center` in the source). -/
def Annot.center : Annot → Point
  | .box bb => bb.center
  | .keypoint _ bb => bb.center

/-- Modelled from the spec: a `Detection` is an annotation plus a confidence
score. -/
structure Detection where
  annot : Annot
  confidence : ℚ
deriving DecidableEq, Inhabited

/-- The category of a detection's annotation. -/
def Detection.category (d : Detection) : String :=
  d.annot.category

/-- Geometry failures (spec §7): raised when fewer than the required corner
landmarks are available for the projective solve. -/
inductive GeometryError where
  | insufficientCorners
deriving DecidableEq

/-- Modelled from the spec: `find_homography` of `point_registration.homography`
(not included under `src/`).  The direct linear/least-squares projective solve
is represented abstractly by the correspondence lists it is computed from;
what the claims depend on is its failure condition — "the homography is
computed from these ≥4 point correspondences", and with fewer than one
detection per required corner category it "cannot be computed
deterministically — this is a GeometryError". -/
def find_homography (src_points dest_points : List Point) :
    Except GeometryError (List Point × List Point) :=
  if src_points.length < 4 ∨ dest_points.length < 4 then
    Except.error GeometryError.insufficientCorners
  else
    Except.ok (src_points, dest_points)

/-- The template side of `create_homography_matrix`: filter the destination
landmarks to the corner categories, sort by category name (Python's stable
`sorted(…, key=lambda bb: bb.category)`). -/
def sorted_dest_landmarks (destination_landmarks : List BoundingBox)
    (corner_landmark_names : List String) : List BoundingBox :=
  List.insertionSort (fun a b => a.category ≤ b.category)
    (destination_landmarks.filter (fun x => corner_landmark_names.contains x.category))

/-- The detection side of `create_homography_matrix`: filter the detected
landmarks to the corner categories, sort by category name. -/
def sorted_src_landmarks (landmark_detections : List Detection)
    (corner_landmark_names : List String) : List Detection :=
  List.insertionSort (fun a b => a.annot.category ≤ b.annot.category)
    (landmark_detections.filter
      (fun x => corner_landmark_names.contains x.annot.category))

/-- `dest_points` of `create_homography_matrix`: centers of the sorted
template landmarks. -/
def dest_points_of (destination_landmarks : List BoundingBox)
    (corner_landmark_names : List String) : List Point :=
  (sorted_dest_landmarks destination_landmarks corner_landmark_names).map
    BoundingBox.center

/-- `src_points` of `create_homography_matrix`: centers of the sorted detected
landmarks. -/
def src_points_of (landmark_detections : List Detection)
    (corner_landmark_names : List String) : List Point :=
  (sorted_src_landmarks landmark_detections corner_landmark_names).map
    (fun d => d.annot.center)

/-- `create_homography_matrix(landmark_detections, corner_landmark_names,
destination_landmarks)` from `extraction.py`: build the two sorted center
lists and hand them to `find_homography`. -/
def create_homography_matrix (landmark_detections : List Detection)
    (corner_landmark_names : List String)
    (destination_landmarks : List BoundingBox) :
    Except GeometryError (List Point × List Point) :=
  find_homography
    (src_points_of landmark_detections corner_landmark_names)
    (dest_points_of destination_landmarks corner_landmark_names)

/-- The four intraoperative corner category names from
`create_intraoperative_homography_matrix`. -/
def intraop_corner_landmark_names : List String :=
  ["anesthesia_start", "safety_checklist", "lateral", "units"]

/-- Modelled from the spec: the canonical intraoperative template (the
label-studio JSON data file is not included under `src/`) is a list of named
bounding boxes with one box per corner landmark category. -/
def intraop_template_landmarks : List BoundingBox :=
  [⟨"anesthesia_start", 0, 0, 10, 10⟩,
   ⟨"safety_checklist", 3200, 0, 3210, 10⟩,
   ⟨"lateral", 0, 2500, 10, 2510⟩,
   ⟨"units", 3200, 2500, 3210, 2510⟩]

/-- `create_intraoperative_homography_matrix` from `extraction.py`. -/
def create_intraoperative_homography_matrix
    (landmark_detections : List Detection) :
    Except GeometryError (List Point × List Point) :=
  create_homography_matrix landmark_detections intraop_corner_landmark_names
    intraop_template_landmarks

/-- Modelled from the spec: `transform_box` of `point_registration.homography`
(not included under `src/`) is a pure total function producing a new
transformed annotation; none of the claims depend on the transformed
coordinates, so it is abstracted as the identity on the annotation. -/
def transform_box (a : Annot) (_h : List Point × List Point) : Annot :=
  a

/-- Modelled from the spec: `transform_keypoint`, likewise a pure total
function abstracted as the identity on the annotation. -/
def transform_keypoint (a : Annot) (_h : List Point × List Point) :
    Annot :=
  a

/-- The per-key remapping loop body of
`assign_meaning_to_intraoperative_detections`: pick `transform_box` when the
first detection's annotation is a `BoundingBox`, else `transform_keypoint`,
and rebuild each detection with its confidence. -/
def remap_detections (h : List Point × List Point) (dets : List Detection) :
    List Detection :=
  match dets with
  | [] => []
  | d0 :: _ =>
    let remap_func := match d0.annot with
      | .box _ => transform_box
      | .keypoint _ _ => transform_keypoint
    dets.map (fun det => ⟨remap_func det.annot h, det.confidence⟩)

/-- A Python dict from model name to detection list, as an association list in
insertion order. -/
def DetectionsDict : Type :=
  List (String × List Detection)

/-- `d[key]` on a detections dict: `KeyError` when the key is absent. -/
def dict_get (d : DetectionsDict) (k : String) :
    Except PyErr (List Detection) :=
  match List.lookup k d with
  | some v => Except.ok v
  | none => Except.error (PyErr.keyError k)

/-- The `corrected_detections_dict` loop of
`assign_meaning_to_intraoperative_detections`: iterate over the input dict,
SKIP every key whose detection list is empty (`if len(detections) == 0:
continue`), and remap the rest through the homography. -/
def corrected_detections_dict (h : List Point × List Point)
    (d : DetectionsDict) : DetectionsDict :=
  d.filterMap (fun kv =>
    if kv.2.isEmpty then none else some (kv.1, remap_detections h kv.2))

/-- Modelled from the spec: the intraoperative output record.  Each field
holds the (already rectified) detections handed to the corresponding
downstream extractor (`extract_drug_codes`, `extract_surgical_timing`, …, all
fail-soft and not included under `src/`); their internal value mapping is
irrelevant to the claims about this function. -/
structure IntraopRecord where
  codes : List Detection
  timing : List Detection
  ett_size : List Detection
  inhaled_volatile : List Detection
  bp_and_hr : List Detection
  physiological_indicators : List Detection
  checkboxes : List Detection
deriving DecidableEq

/-- `assign_meaning_to_intraoperative_detections(intraop_detections_dict)`
from `extraction.py`: compute the homography from the ORIGINAL dict's
`"landmarks"` entry, build `corrected_detections_dict` (skipping empty
lists), then look up `corrected_detections_dict["numbers"]`, `["landmarks"]`,
`["systolic"]`, `["diastolic"]`, `["heart_rate"]` and `["checkboxes"]` — in
the source's access order — to feed the field extractors.  Every failed dict
access is an uncaught `KeyError`; an uncaught `GeometryError` from the
homography propagates as well. -/
def assign_meaning_to_intraoperative_detections (d : DetectionsDict) :
    Except PyErr IntraopRecord := do
  let lms ← dict_get d "landmarks"
  let h ← match create_intraoperative_homography_matrix lms with
    | Except.error _ => Except.error PyErr.geometryError
    | Except.ok h => Except.ok h
  let corrected := corrected_detections_dict h d
  let numbers_dets ← dict_get corrected "numbers"
  let landmark_dets ← dict_get corrected "landmarks"
  let systolic_dets ← dict_get corrected "systolic"
  let diastolic_dets ← dict_get corrected "diastolic"
  let heart_rate_dets ← dict_get corrected "heart_rate"
  let checkbox_dets ← dict_get corrected "checkboxes"
  Except.ok
    { codes := numbers_dets
      timing := numbers_dets
      ett_size := numbers_dets
      inhaled_volatile := numbers_dets ++ landmark_dets
      bp_and_hr := systolic_dets ++ diastolic_dets ++ heart_rate_dets
      physiological_indicators := numbers_dets ++ landmark_dets
      checkboxes := checkbox_dets }

/-- `OnnxYolov11Detection.__call__(images, confidence, iou_threshold)`: its
first statement is `if not model_is_loaded:`, a BARE-NAME reference (the
attribute would be `self.model_is_loaded`), so the lookup consults
`call_scope_names`; an unresolvable bare name is a `NameError`.  The branch
that a resolvable name would take (load on demand, then run `detect` per
image) is written with the inference backend abstracted as a per-image
function, since the neural inference call is out of scope. -/
def yolo11_call (s : Yolo11State) (backend : PyImage → List Detection)
    (images : List PyImage) :
    Except PyErr (Yolo11State × List (List Detection)) :=
  if call_scope_names.contains "model_is_loaded" then
    let s' := if s.model_is_loaded then s else load_model s
    Except.ok (s', images.map backend)
  else
    Except.error (PyErr.nameError "model_is_loaded")

/-- Truncation toward zero, Python's `int()` on a float/rational value. -/
def rat_int_trunc (q : ℚ) : ℤ :=
  if 0 ≤ q then ⌊q⌋ else -⌊-q⌋

/-- `compute_tile_size(model_config, image_size)` from `extraction.py`:
`int(min(image_size[0] * tile_size_proportion, image_size[1] *
tile_size_proportion))`, with `image_size = (width, height)` as PIL reports
it. -/
def compute_tile_size (tile_size_proportion : ℚ) (image_size : Nat × Nat) : ℤ :=
  rat_int_trunc
    (min ((image_size.1 : ℚ) * tile_size_proportion)
      ((image_size.2 : ℚ) * tile_size_proportion))

end ChartExtractor

namespace ChartExtractor

lemma inter_area_comm (a b : PredRow) : inter_area a b = inter_area b a := by
  unfold inter_area
  rw [min_comm a.x2 b.x2, max_comm a.x1 b.x1, min_comm a.y2 b.y2,
    max_comm a.y1 b.y1]

lemma batch_iou_comm (a b : PredRow) : batch_iou a b = batch_iou b a := by
  unfold batch_iou
  rw [inter_area_comm a b, add_comm (box_area a) (box_area b)]

lemma batch_iou_self (r : PredRow) : batch_iou r r = 1 ∨ batch_iou r r = 0 := by
  by_cases hx : r.x1 ≤ r.x2
  · by_cases hy : r.y1 ≤ r.y2
    · have hinter : inter_area r r = box_area r := by
        unfold inter_area box_area
        simp only [min_self, max_self]
        rw [max_eq_right (sub_nonneg.2 hx), max_eq_right (sub_nonneg.2 hy)]
      by_cases hA : box_area r = 0
      · right
        unfold batch_iou
        rw [hinter, hA]
        simp
      · left
        unfold batch_iou
        rw [hinter, add_sub_cancel_right]
        exact div_self hA
    · right
      have hinter : inter_area r r = 0 := by
        unfold inter_area
        simp only [min_self, max_self]
        rw [max_eq_left (le_of_lt (sub_neg.2 (lt_of_not_le hy)))]
        ring
      unfold batch_iou
      rw [hinter]
      simp
  · right
    have hinter : inter_area r r = 0 := by
      unfold inter_area
      simp only [min_self, max_self]
      rw [max_eq_left (le_of_lt (sub_neg.2 (lt_of_not_le hx)))]
      ring
    unfold batch_iou
    rw [hinter]
    simp

lemma batch_iou_self_le_one (r : PredRow) : batch_iou r r ≤ 1 := by
  rcases batch_iou_self r with h | h <;> simp [h]

lemma nms_condb_self_false (p : Nat → PredRow) (thr : ℚ) (hthr : 0 ≤ thr)
    (i : Nat) : nms_condb p thr i i = false := by
  have hle := batch_iou_self_le_one (p i)
  have hlt : ¬ (batch_iou (p i) (p i) - 1 > thr) := by
    push_neg
    linarith
  simp [nms_condb, hlt]

lemma nms_condb_symm (p : Nat → PredRow) (thr : ℚ) {i j : Nat} (hij : i ≠ j)
    (h : nms_condb p thr i j = true) : nms_condb p thr j i = true := by
  simp only [nms_condb, if_neg hij, if_neg (Ne.symm hij), sub_zero,
    Bool.and_eq_true, decide_eq_true_eq] at h ⊢
  exact ⟨by rw [batch_iou_comm]; exact h.1, h.2.symm⟩

lemma nms_step_true (p : Nat → PredRow) (thr : ℚ) {keep : Nat → Bool}
    {i j : Nat} (h : nms_step p thr keep i j = true) : keep j = true := by
  unfold nms_step at h
  by_cases hk : keep i = true
  · rw [if_pos hk] at h
    simp only [Bool.and_eq_true] at h
    exact h.1
  · rwa [if_neg hk] at h

lemma nms_keep_zero (p : Nat → PredRow) (thr : ℚ) (j : Nat) :
    nms_keep p thr 0 j = true := rfl

lemma nms_keep_succ (p : Nat → PredRow) (thr : ℚ) {k j : Nat}
    (h : nms_keep p thr (k + 1) j = true) : nms_keep p thr k j = true :=
  nms_step_true p thr h

lemma nms_keep_antitone (p : Nat → PredRow) (thr : ℚ) {k m j : Nat}
    (hkm : k ≤ m) (h : nms_keep p thr m j = true) :
    nms_keep p thr k j = true := by
  induction m, hkm using Nat.le_induction with
  | base => exact h
  | succ m hm ih => exact ih (nms_keep_succ p thr h)

lemma nms_step_false_cases (p : Nat → PredRow) (thr : ℚ) {keep : Nat → Bool}
    {i j : Nat} (h : nms_step p thr keep i j = false) :
    keep j = false ∨ (keep i = true ∧ nms_condb p thr i j = true) := by
  unfold nms_step at h
  by_cases hk : keep i = true
  · rw [if_pos hk] at h
    rcases Bool.and_eq_false_iff.1 h with h' | h'
    · exact Or.inl h'
    · exact Or.inr ⟨hk, by simpa using h'⟩
  · rw [if_neg hk] at h
    exact Or.inl h

lemma nms_keep_exists_transition (p : Nat → PredRow) (thr : ℚ) {n j : Nat}
    (h : nms_keep p thr n j = false) :
    ∃ k, k < n ∧ nms_keep p thr k j = true ∧ nms_keep p thr (k + 1) j = false := by
  induction n with
  | zero => exact absurd h (by simp [nms_keep_zero])
  | succ n ih =>
    by_cases h' : nms_keep p thr n j = false
    · obtain ⟨k, hk, h1, h2⟩ := ih h'
      exact ⟨k, Nat.lt_succ_of_lt hk, h1, h2⟩
    · exact ⟨n, Nat.lt_succ_self n, Bool.of_not_eq_false h', h⟩

lemma nms_keep_succ_self (p : Nat → PredRow) (thr : ℚ) {k : Nat}
    (h : nms_keep p thr k k = true) :
    nms_keep p thr (k + 1) k = !(nms_condb p thr k k) := by
  show nms_step p thr (nms_keep p thr k) k k = _
  unfold nms_step
  rw [if_pos h, h, Bool.true_and]

lemma nms_keep_survivor_self (p : Nat → PredRow) (thr : ℚ) {n i : Nat}
    (hin : i < n) (h : nms_keep p thr n i = true) :
    nms_condb p thr i i = false := by
  have h1 : nms_keep p thr (i + 1) i = true :=
    nms_keep_antitone p thr (Nat.succ_le_of_lt hin) h
  have h0 : nms_keep p thr i i = true := nms_keep_succ p thr h1
  have := nms_keep_succ_self p thr h0
  rw [this] at h1
  simpa using h1

lemma nms_keep_stable_succ (p : Nat → PredRow) (thr : ℚ) {m j : Nat}
    (hj : j < m) (h : nms_keep p thr m j = true) :
    nms_keep p thr (m + 1) j = true := by
  cases hfalse : nms_keep p thr (m + 1) j with
  | true => rfl
  | false =>
    exfalso
    rcases nms_step_false_cases p thr hfalse with h' | ⟨hmm, hcond⟩
    · exact absurd h (by simp [h'])
    · have hmj : m ≠ j := (Nat.ne_of_lt hj).symm
      have hcond' : nms_condb p thr j m = true := nms_condb_symm p thr hmj hcond
      have h1 : nms_keep p thr (j + 1) j = true :=
        nms_keep_antitone p thr (Nat.succ_le_of_lt hj) h
      have h0 : nms_keep p thr j j = true := nms_keep_succ p thr h1
      have h2 : nms_keep p thr (j + 1) m = false := by
        show nms_step p thr (nms_keep p thr j) j m = false
        unfold nms_step
        rw [if_pos h0, hcond']
        simp
      have h3 : nms_keep p thr m m = false := by
        cases h4 : nms_keep p thr m m with
        | false => rfl
        | true =>
          exact absurd (nms_keep_antitone p thr (Nat.succ_le_of_lt hj) h4)
            (by simp [h2])
      exact absurd hmm (by simp [h3])

lemma nms_keep_stable (p : Nat → PredRow) (thr : ℚ) {k m j : Nat}
    (hj : j < k) (hkm : k ≤ m) (h : nms_keep p thr k j = true) :
    nms_keep p thr m j = true := by
  induction m, hkm using Nat.le_induction with
  | base => exact h
  | succ m hm ih => exact nms_keep_stable_succ p thr (lt_of_lt_of_le hj hm) ih

lemma nms_keep_suppressed_witness (p : Nat → PredRow) (thr : ℚ) {n j : Nat}
    (hthr : 0 ≤ thr) (hjn : j < n) (h : nms_keep p thr n j = false) :
    ∃ t, t < j ∧ t < n ∧ nms_keep p thr n t = true ∧
      nms_condb p thr t j = true := by
  obtain ⟨k, hkn, htrue, hfalse⟩ := nms_keep_exists_transition p thr h
  rcases nms_step_false_cases p thr hfalse with h' | ⟨hkk, hcond⟩
  · exact absurd htrue (by simp [h'])
  · have hkj : k ≠ j := by
      rintro rfl
      exact absurd hcond (by simp [nms_condb_self_false p thr hthr])
    have hklt : k < j := by
      rcases Nat.lt_or_ge k j with h1 | h1
      · exact h1
      · exact absurd (nms_keep_stable_succ p thr (lt_of_le_of_ne h1 hkj.symm) htrue)
          (by simp [hfalse])
    have hkk' : nms_keep p thr k k = true := hkk
    have hk1 : nms_keep p thr (k + 1) k = true := by
      rw [nms_keep_succ_self p thr hkk', nms_condb_self_false p thr hthr]
      rfl
    exact ⟨k, hklt, hkn,
      nms_keep_stable p thr (Nat.lt_succ_self k) (Nat.succ_le_of_lt hkn) hk1,
      hcond⟩

lemma nms_keep_top (p : Nat → PredRow) (thr : ℚ) (hthr : 0 ≤ thr) :
    ∀ m, nms_keep p thr m 0 = true := by
  intro m
  induction m with
  | zero => rfl
  | succ m ih =>
    show nms_step p thr (nms_keep p thr m) m 0 = true
    by_cases hm : nms_keep p thr m m = true
    · unfold nms_step
      rw [if_pos hm, ih, Bool.true_and]
      rcases Nat.eq_zero_or_pos m with rfl | hmpos
      · rw [nms_condb_self_false p thr hthr]
        rfl
      · cases hc : nms_condb p thr m 0 with
        | false => rfl
        | true =>
          exfalso
          have hm0 : m ≠ 0 := Nat.pos_iff_ne_zero.1 hmpos
          have hc' : nms_condb p thr 0 m = true := nms_condb_symm p thr hm0 hc
          have h1 : nms_keep p thr 1 m = false := by
            show nms_step p thr (nms_keep p thr 0) 0 m = false
            unfold nms_step
            rw [if_pos (nms_keep_zero p thr 0), nms_keep_zero p thr m, hc']
            rfl
          have := nms_keep_antitone p thr (Nat.one_le_iff_ne_zero.2 hm0) hm
          rw [this] at h1
          exact absurd h1 (by simp)
    · unfold nms_step
      rw [if_neg hm]
      exact ih

lemma nms_keep_survivors_pairwise (p : Nat → PredRow) (thr : ℚ) {n i j : Nat}
    (hij : i < j) (hjn : j < n) (hi : nms_keep p thr n i = true)
    (hj : nms_keep p thr n j = true) : nms_condb p thr i j = false := by
  have hin : i < n := hij.trans hjn
  have h1 : nms_keep p thr (i + 1) j = true :=
    nms_keep_antitone p thr (Nat.succ_le_of_lt hin) hj
  have h0i : nms_keep p thr i i = true :=
    nms_keep_succ p thr (nms_keep_antitone p thr (Nat.succ_le_of_lt hin) hi)
  have h2 : nms_step p thr (nms_keep p thr i) i j = true := h1
  unfold nms_step at h2
  rw [if_pos h0i] at h2
  simp only [Bool.and_eq_true, Bool.not_eq_true'] at h2
  exact h2.2

lemma nms_keep_all_of_no_cond (p : Nat → PredRow) (thr : ℚ) {n : Nat}
    (hno : ∀ i j, i < n → j < n → nms_condb p thr i j = false) :
    ∀ k, k ≤ n → ∀ j, j < n → nms_keep p thr k j = true := by
  intro k
  induction k with
  | zero => intro _ j _; rfl
  | succ k ih =>
    intro hk j hj
    show nms_step p thr (nms_keep p thr k) k j = true
    by_cases hkk : nms_keep p thr k k = true
    · unfold nms_step
      rw [if_pos hkk, ih (Nat.le_of_succ_le hk) j hj,
        hno k j (Nat.lt_of_succ_le hk) hj]
      rfl
    · unfold nms_step
      rw [if_neg hkk]
      exact ih (Nat.le_of_succ_le hk) j hj

lemma argsort_desc_perm (confs : List ℚ) :
    List.Perm (argsort_desc confs) (List.range confs.length) :=
  (List.reverse_perm _).trans (List.perm_insertionSort _ _)

lemma argsort_desc_length (confs : List ℚ) :
    (argsort_desc confs).length = confs.length :=
  (argsort_desc_perm confs).length_eq.trans (List.length_range _)

lemma argsort_desc_nodup (confs : List ℚ) : (argsort_desc confs).Nodup :=
  ((argsort_desc_perm confs).nodup_iff).2 (List.nodup_range _)

lemma argsort_desc_mem (confs : List ℚ) (a : Nat) :
    a ∈ argsort_desc confs ↔ a < confs.length := by
  rw [(argsort_desc_perm confs).mem_iff, List.mem_range]

lemma argsort_desc_pairwise (confs : List ℚ) :
    (argsort_desc confs).Pairwise
      (fun i j => confs.getD j 0 ≤ confs.getD i 0) := by
  haveI h1 : IsTotal Nat (fun i j => confs.getD i 0 ≤ confs.getD j 0) :=
    ⟨fun a b => le_total _ _⟩
  haveI h2 : IsTrans Nat (fun i j => confs.getD i 0 ≤ confs.getD j 0) :=
    ⟨fun a b c hab hbc => le_trans hab hbc⟩
  have hs := List.sorted_insertionSort
    (fun i j => confs.getD i 0 ≤ confs.getD j 0) (List.range confs.length)
  exact (List.pairwise_reverse).2 hs

lemma argsort_desc_sorted_getD (confs : List ℚ) {t j : Nat} (htj : t ≤ j)
    (hj : j < (argsort_desc confs).length) :
    confs.getD ((argsort_desc confs).getD j 0) 0 ≤
      confs.getD ((argsort_desc confs).getD t 0) 0 := by
  rcases eq_or_lt_of_le htj with rfl | hlt
  · exact le_refl _
  · have ht : t < (argsort_desc confs).length := lt_trans hlt hj
    have hpw := List.pairwise_iff_get.1 (argsort_desc_pairwise confs)
      ⟨t, ht⟩ ⟨j, hj⟩ hlt
    rwa [List.get_eq_getElem, List.get_eq_getElem, ← List.getD_eq_getElem _ 0 ht,
      ← List.getD_eq_getElem _ 0 hj] at hpw

lemma non_max_suppression_length (ps : List PredRow) (thr : ℚ) :
    (non_max_suppression ps thr).length = ps.length := by
  simp [non_max_suppression]

lemma mask_getD (ps : List PredRow) (thr : ℚ) {a : Nat} (ha : a < ps.length) :
    (non_max_suppression ps thr).getD a false =
      nms_keep (sortedPred ps) thr ps.length
        ((argsort_desc (ps.map PredRow.conf)).indexOf a) := by
  have hlen : a < ((List.range ps.length).map
      (fun i => nms_keep (sortedPred ps) thr ps.length
        ((argsort_desc (ps.map PredRow.conf)).indexOf i))).length := by
    simpa using ha
  show ((List.range ps.length).map _).getD a false = _
  rw [List.getD_eq_getElem _ _ hlen, List.getElem_map, List.getElem_range]

lemma indexOf_lt_of_lt (ps : List PredRow) {a : Nat} (ha : a < ps.length) :
    (argsort_desc (ps.map PredRow.conf)).indexOf a <
      (argsort_desc (ps.map PredRow.conf)).length :=
  List.indexOf_lt_length.2 ((argsort_desc_mem _ a).2 (by simpa using ha))

lemma si_getD_indexOf (ps : List PredRow) {a : Nat} (ha : a < ps.length) :
    (argsort_desc (ps.map PredRow.conf)).getD
      ((argsort_desc (ps.map PredRow.conf)).indexOf a) 0 = a := by
  have h := indexOf_lt_of_lt ps ha
  rw [List.getD_eq_getElem _ _ h]
  have hget := List.indexOf_get h
  rw [List.get_eq_getElem] at hget
  exact hget

lemma indexOf_si_getD (ps : List PredRow) {t : Nat}
    (ht : t < (argsort_desc (ps.map PredRow.conf)).length) :
    (argsort_desc (ps.map PredRow.conf)).indexOf
      ((argsort_desc (ps.map PredRow.conf)).getD t 0) = t := by
  have hmem : (argsort_desc (ps.map PredRow.conf)).getD t 0 ∈
      argsort_desc (ps.map PredRow.conf) := by
    rw [List.getD_eq_getElem _ _ ht]
    exact List.getElem_mem _
  have hidx : (argsort_desc (ps.map PredRow.conf)).indexOf
      ((argsort_desc (ps.map PredRow.conf)).getD t 0) <
        (argsort_desc (ps.map PredRow.conf)).length :=
    List.indexOf_lt_length.2 hmem
  have hinj : Function.Injective (argsort_desc (ps.map PredRow.conf)).get :=
    List.nodup_iff_injective_get.1 (argsort_desc_nodup (ps.map PredRow.conf))
  have hget : (argsort_desc (ps.map PredRow.conf)).get ⟨_, hidx⟩ =
      (argsort_desc (ps.map PredRow.conf)).getD t 0 := List.indexOf_get hidx
  have heq : (argsort_desc (ps.map PredRow.conf)).get ⟨_, hidx⟩ =
      (argsort_desc (ps.map PredRow.conf)).get ⟨t, ht⟩ := by
    rw [hget, List.get_eq_getElem, ← List.getD_eq_getElem _ 0 ht]
  exact congrArg Fin.val (hinj heq)

lemma si_getD_lt (ps : List PredRow) {t : Nat}
    (ht : t < (argsort_desc (ps.map PredRow.conf)).length) :
    (argsort_desc (ps.map PredRow.conf)).getD t 0 < ps.length := by
  have hmem : (argsort_desc (ps.map PredRow.conf)).getD t 0 ∈
      argsort_desc (ps.map PredRow.conf) := by
    rw [List.getD_eq_getElem _ _ ht]
    exact List.getElem_mem _
  have := (argsort_desc_mem _ _).1 hmem
  simpa using this

lemma sortedPred_indexOf (ps : List PredRow) {a : Nat} (ha : a < ps.length) :
    sortedPred ps ((argsort_desc (ps.map PredRow.conf)).indexOf a) =
      ps.getD a default := by
  unfold sortedPred
  rw [si_getD_indexOf ps ha]

lemma getD_map_conf (ps : List PredRow) {a : Nat} (ha : a < ps.length) :
    (ps.map PredRow.conf).getD a 0 = (ps.getD a default).conf := by
  have ha' : a < (ps.map PredRow.conf).length := by simpa using ha
  rw [List.getD_eq_getElem _ 0 ha', List.getD_eq_getElem _ default ha,
    List.getElem_map]

lemma sortedPred_conf (ps : List PredRow) {t : Nat}
    (ht : t < (argsort_desc (ps.map PredRow.conf)).length) :
    (sortedPred ps t).conf =
      (ps.map PredRow.conf).getD ((argsort_desc (ps.map PredRow.conf)).getD t 0) 0 := by
  unfold sortedPred
  rw [getD_map_conf ps (si_getD_lt ps ht)]

lemma si_length_eq (ps : List PredRow) :
    (argsort_desc (ps.map PredRow.conf)).length = ps.length := by
  rw [argsort_desc_length]
  simp

/-- C3: `non_max_suppression` suppresses a row only when some kept row of the
same category has intersection-over-union with it above `iou_threshold` and
confidence at least as high as its own (for the meaningful nonnegative
thresholds; the default is 0.5).  In particular rows of different categories
never suppress one another: every suppressed row has a KEPT same-category
witness with IoU above the threshold and at-least-equal confidence. -/
theorem c3_nms_suppressed_only_by_kept_same_category (ps : List PredRow)
    (thr : ℚ) (hthr : 0 ≤ thr) (r : Nat) (hr : r < ps.length)
    (hsup : (non_max_suppression ps thr).getD r false = false) :
    ∃ k, k < ps.length ∧ (non_max_suppression ps thr).getD k false = true ∧
      (ps.getD k default).cls = (ps.getD r default).cls ∧
      batch_iou (ps.getD k default) (ps.getD r default) > thr ∧
      (ps.getD r default).conf ≤ (ps.getD k default).conf := by
  have hmask := mask_getD ps thr hr
  rw [hmask] at hsup
  have hjsi : (argsort_desc (ps.map PredRow.conf)).indexOf r <
      (argsort_desc (ps.map PredRow.conf)).length := indexOf_lt_of_lt ps hr
  have hjn : (argsort_desc (ps.map PredRow.conf)).indexOf r < ps.length := by
    rwa [si_length_eq ps] at hjsi
  obtain ⟨t, htj, htn, hkeep, hcond⟩ :=
    nms_keep_suppressed_witness (sortedPred ps) thr hthr hjn hsup
  have htsi : t < (argsort_desc (ps.map PredRow.conf)).length := by
    rwa [si_length_eq ps]
  have hklt : (argsort_desc (ps.map PredRow.conf)).getD t 0 < ps.length :=
    si_getD_lt ps htsi
  have htne : t ≠ (argsort_desc (ps.map PredRow.conf)).indexOf r :=
    Nat.ne_of_lt htj
  simp only [nms_condb, if_neg htne, sub_zero, Bool.and_eq_true,
    decide_eq_true_eq] at hcond
  have hpj : sortedPred ps ((argsort_desc (ps.map PredRow.conf)).indexOf r) =
      ps.getD r default := sortedPred_indexOf ps hr
  have hpt : sortedPred ps t =
      ps.getD ((argsort_desc (ps.map PredRow.conf)).getD t 0) default := rfl
  refine ⟨(argsort_desc (ps.map PredRow.conf)).getD t 0, hklt, ?_, ?_, ?_, ?_⟩
  · rw [mask_getD ps thr hklt, indexOf_si_getD ps htsi]
    exact hkeep
  · rw [← hpt, ← hpj]
    exact hcond.2.symm
  · rw [← hpt, ← hpj]
    exact hcond.1
  · rw [← hpt, ← hpj, sortedPred_conf ps hjsi, sortedPred_conf ps htsi]
    exact argsort_desc_sorted_getD (ps.map PredRow.conf) (le_of_lt htj) hjsi

/-- C3 witness: two fully-overlapping boxes of the same category with
confidences 0.9 and 0.8 at threshold 0.5 — the 0.8 row is suppressed, and the
theorem yields its kept same-category higher-confidence witness. -/
theorem c3_witness :
    (0 : ℚ) ≤ 1 / 2 ∧
    1 < ([⟨0, 0, 1, 1, 9/10, 0⟩, ⟨0, 0, 1, 1, 8/10, 0⟩] : List PredRow).length ∧
    (non_max_suppression [⟨0, 0, 1, 1, 9/10, 0⟩, ⟨0, 0, 1, 1, 8/10, 0⟩]
      (1/2)).getD 1 false = false ∧
    (∃ k, k < ([⟨0, 0, 1, 1, 9/10, 0⟩, ⟨0, 0, 1, 1, 8/10, 0⟩] :
        List PredRow).length ∧
      (non_max_suppression [⟨0, 0, 1, 1, 9/10, 0⟩, ⟨0, 0, 1, 1, 8/10, 0⟩]
        (1/2)).getD k false = true ∧
      (([⟨0, 0, 1, 1, 9/10, 0⟩, ⟨0, 0, 1, 1, 8/10, 0⟩] :
        List PredRow).getD k default).cls =
        (([⟨0, 0, 1, 1, 9/10, 0⟩, ⟨0, 0, 1, 1, 8/10, 0⟩] :
          List PredRow).getD 1 default).cls ∧
      batch_iou (([⟨0, 0, 1, 1, 9/10, 0⟩, ⟨0, 0, 1, 1, 8/10, 0⟩] :
          List PredRow).getD k default)
        (([⟨0, 0, 1, 1, 9/10, 0⟩, ⟨0, 0, 1, 1, 8/10, 0⟩] :
          List PredRow).getD 1 default) > 1/2 ∧
      (([⟨0, 0, 1, 1, 9/10, 0⟩, ⟨0, 0, 1, 1, 8/10, 0⟩] :
        List PredRow).getD 1 default).conf ≤
        (([⟨0, 0, 1, 1, 9/10, 0⟩, ⟨0, 0, 1, 1, 8/10, 0⟩] :
          List PredRow).getD k default).conf) :=
  ⟨by norm_num, by norm_num,
   by with_unfolding_all decide,
   c3_nms_suppressed_only_by_kept_same_category _ _ (by norm_num) 1
     (by norm_num) (by with_unfolding_all decide)⟩

/-- C10 (amended): for a nonnegative `iou_threshold`, `non_max_suppression`
always keeps a row of globally maximal confidence: the returned mask is true
at that row's original position. -/
theorem c10_nms_keeps_a_max_confidence_row (ps : List PredRow) (thr : ℚ)
    (hne : ps ≠ []) (hthr : 0 ≤ thr) :
    ∃ r, r < ps.length ∧ (non_max_suppression ps thr).getD r false = true ∧
      ∀ j, j < ps.length →
        (ps.getD j default).conf ≤ (ps.getD r default).conf := by
  have hpos : 0 < ps.length := List.length_pos.2 hne
  have h0 : 0 < (argsort_desc (ps.map PredRow.conf)).length := by
    rwa [si_length_eq ps]
  refine ⟨(argsort_desc (ps.map PredRow.conf)).getD 0 0, si_getD_lt ps h0,
    ?_, ?_⟩
  · rw [mask_getD ps thr (si_getD_lt ps h0), indexOf_si_getD ps h0]
    exact nms_keep_top (sortedPred ps) thr hthr ps.length
  · intro j hj
    have hjsi : (argsort_desc (ps.map PredRow.conf)).indexOf j <
        (argsort_desc (ps.map PredRow.conf)).length := indexOf_lt_of_lt ps hj
    have h1 : ps.getD j default =
        sortedPred ps ((argsort_desc (ps.map PredRow.conf)).indexOf j) :=
      (sortedPred_indexOf ps hj).symm
    have h2 : ps.getD ((argsort_desc (ps.map PredRow.conf)).getD 0 0) default =
        sortedPred ps 0 := rfl
    rw [h1, h2, sortedPred_conf ps hjsi, sortedPred_conf ps h0]
    exact argsort_desc_sorted_getD (ps.map PredRow.conf) (Nat.zero_le _) hjsi

/-- C10 counterexample: for the negative threshold −1, even a lone box — the
unique row of globally maximal confidence — suppresses itself (the diagonal of
the IoU matrix after the `np.eye` subtraction is 0, and `0 > −1` with matching
category), so the mask is false at the maximal row, refuting the claim "for
any iou_threshold". -/
theorem c10_counterexample :
    (non_max_suppression [⟨0, 0, 1, 1, 1, 0⟩] (-1)).getD 0 false = false := by
  with_unfolding_all decide

/-- C10 witness: a lone box at threshold 0 is kept, and it carries the maximal
confidence. -/
theorem c10_witness :
    ([⟨0, 0, 1, 1, 1, 0⟩] : List PredRow) ≠ [] ∧ (0 : ℚ) ≤ 0 ∧
    (∃ r, r < ([⟨0, 0, 1, 1, 1, 0⟩] : List PredRow).length ∧
      (non_max_suppression [⟨0, 0, 1, 1, 1, 0⟩] 0).getD r false = true ∧
      ∀ j, j < ([⟨0, 0, 1, 1, 1, 0⟩] : List PredRow).length →
        (([⟨0, 0, 1, 1, 1, 0⟩] : List PredRow).getD j default).conf ≤
          (([⟨0, 0, 1, 1, 1, 0⟩] : List PredRow).getD r default).conf) :=
  ⟨by with_unfolding_all decide, le_refl 0,
   c10_nms_keeps_a_max_confidence_row _ _ (by with_unfolding_all decide)
     (le_refl 0)⟩

lemma survivors_pairwise_values (ps : List PredRow) (thr : ℚ) {a b : Nat}
    (hab : a ≠ b) (ha : a < ps.length) (hb : b < ps.length)
    (hma : (non_max_suppression ps thr).getD a false = true)
    (hmb : (non_max_suppression ps thr).getD b false = true) :
    ¬(batch_iou (ps.getD a default) (ps.getD b default) > thr ∧
      (ps.getD b default).cls = (ps.getD a default).cls) := by
  rw [mask_getD ps thr ha] at hma
  rw [mask_getD ps thr hb] at hmb
  have hia : (argsort_desc (ps.map PredRow.conf)).indexOf a <
      (argsort_desc (ps.map PredRow.conf)).length := indexOf_lt_of_lt ps ha
  have hib : (argsort_desc (ps.map PredRow.conf)).indexOf b <
      (argsort_desc (ps.map PredRow.conf)).length := indexOf_lt_of_lt ps hb
  have hne : (argsort_desc (ps.map PredRow.conf)).indexOf a ≠
      (argsort_desc (ps.map PredRow.conf)).indexOf b := by
    intro h
    apply hab
    rw [← si_getD_indexOf ps ha, ← si_getD_indexOf ps hb, h]
  have hpa : sortedPred ps ((argsort_desc (ps.map PredRow.conf)).indexOf a) =
      ps.getD a default := sortedPred_indexOf ps ha
  have hpb : sortedPred ps ((argsort_desc (ps.map PredRow.conf)).indexOf b) =
      ps.getD b default := sortedPred_indexOf ps hb
  rcases lt_or_gt_of_ne hne with hlt | hgt
  · have hcond := nms_keep_survivors_pairwise (sortedPred ps) thr hlt
      (by rwa [si_length_eq ps] at hib) hma hmb
    simp only [nms_condb, if_neg (Nat.ne_of_lt hlt), sub_zero,
      Bool.and_eq_false_iff, decide_eq_false_iff_not, hpa, hpb] at hcond
    intro hcontra
    rcases hcond with h | h
    · exact absurd hcontra.1 (by simpa using h)
    · exact absurd hcontra.2 (by simpa using h)
  · have hcond := nms_keep_survivors_pairwise (sortedPred ps) thr hgt
      (by rwa [si_length_eq ps] at hia) hmb hma
    simp only [nms_condb, if_neg (Nat.ne_of_lt hgt), sub_zero,
      Bool.and_eq_false_iff, decide_eq_false_iff_not, hpa, hpb] at hcond
    intro hcontra
    have hc1 := hcontra.1
    rw [batch_iou_comm] at hc1
    rcases hcond with h | h
    · exact absurd hc1 (by simpa using h)
    · exact absurd hcontra.2.symm (by simpa using h)

lemma survivors_self_values (ps : List PredRow) (thr : ℚ) {a : Nat}
    (ha : a < ps.length)
    (hma : (non_max_suppression ps thr).getD a false = true) :
    ¬(batch_iou (ps.getD a default) (ps.getD a default) - 1 > thr) := by
  rw [mask_getD ps thr ha] at hma
  have hidx := indexOf_lt_of_lt ps ha
  rw [si_length_eq ps] at hidx
  have hcond := nms_keep_survivor_self (sortedPred ps) thr hidx hma
  have hpa : sortedPred ps ((argsort_desc (ps.map PredRow.conf)).indexOf a) =
      ps.getD a default := sortedPred_indexOf ps ha
  simp only [nms_condb, if_pos rfl, Bool.and_eq_false_iff,
    decide_eq_false_iff_not, hpa] at hcond
  rcases hcond with h | h
  · simpa using h
  · exact absurd trivial h

lemma keptRows_nil_mask (ps : List PredRow) : keptRows ps [] = [] := by
  simp [keptRows]

lemma keptRows_cons (x : PredRow) (ps : List PredRow) (m : Bool)
    (mask : List Bool) :
    keptRows (x :: ps) (m :: mask) =
      if m then x :: keptRows ps mask else keptRows ps mask := by
  cases m <;> simp [keptRows]

lemma keptRows_mem : ∀ (ps : List PredRow) (mask : List Bool) (v : PredRow),
    v ∈ keptRows ps mask →
    ∃ a, a < ps.length ∧ mask.getD a false = true ∧ ps.getD a default = v := by
  intro ps
  induction ps with
  | nil => intro mask v hv; simp [keptRows] at hv
  | cons x ps ih =>
    intro mask v hv
    cases mask with
    | nil => simp [keptRows_nil_mask] at hv
    | cons m mask =>
      rw [keptRows_cons] at hv
      cases m with
      | true =>
        rw [if_pos rfl] at hv
        rcases List.mem_cons.1 hv with rfl | hv'
        · exact ⟨0, Nat.succ_pos _, rfl, rfl⟩
        · obtain ⟨a, h1, h2, h3⟩ := ih mask v hv'
          exact ⟨a + 1, Nat.succ_lt_succ h1, h2, h3⟩
      | false =>
        rw [if_neg (by simp)] at hv
        obtain ⟨a, h1, h2, h3⟩ := ih mask v hv
        exact ⟨a + 1, Nat.succ_lt_succ h1, h2, h3⟩

lemma keptRows_pairwise {Q : PredRow → PredRow → Prop} :
    ∀ (ps : List PredRow) (mask : List Bool),
    (∀ a b, a < b → b < ps.length → mask.getD a false = true →
      mask.getD b false = true → Q (ps.getD a default) (ps.getD b default)) →
    (keptRows ps mask).Pairwise Q := by
  intro ps
  induction ps with
  | nil => intro mask _; simp [keptRows]
  | cons x ps ih =>
    intro mask hQ
    cases mask with
    | nil => simp [keptRows_nil_mask]
    | cons m mask =>
      rw [keptRows_cons]
      have htail : (keptRows ps mask).Pairwise Q := by
        apply ih
        intro a b hab hb h1 h2
        exact hQ (a + 1) (b + 1) (Nat.succ_lt_succ hab) (Nat.succ_lt_succ hb)
          h1 h2
      cases m with
      | true =>
        rw [if_pos rfl]
        refine List.Pairwise.cons ?_ htail
        intro v hv
        obtain ⟨a, h1, h2, h3⟩ := keptRows_mem ps mask v hv
        have := hQ 0 (a + 1) (Nat.succ_pos _) (Nat.succ_lt_succ h1) rfl h2
        simp only [List.getD_cons_zero, List.getD_cons_succ] at this
        rwa [h3] at this
      | false =>
        rw [if_neg (by simp)]
        exact htail

lemma pairwise_getD {Q : PredRow → PredRow → Prop} {l : List PredRow}
    (hpw : l.Pairwise Q) {u v : Nat} (hv : v < l.length) (huv : u < v) :
    Q (l.getD u default) (l.getD v default) := by
  have hu : u < l.length := lt_trans huv hv
  have := List.pairwise_iff_get.1 hpw ⟨u, hu⟩ ⟨v, hv⟩ huv
  rwa [List.get_eq_getElem, List.get_eq_getElem, ← List.getD_eq_getElem _ default hu,
    ← List.getD_eq_getElem _ default hv] at this

/-- C4: non-maximum suppression is idempotent — running it again on exactly
the rows kept by a first application keeps all of them (the returned mask is
all-true on the kept rows). -/
theorem c4_nms_idempotent (ps : List PredRow) (thr : ℚ) :
    non_max_suppression (keptRows ps (non_max_suppression ps thr)) thr =
      List.replicate (keptRows ps (non_max_suppression ps thr)).length true := by
  have hQ : (keptRows ps (non_max_suppression ps thr)).Pairwise
      (fun a b =>
        (¬(batch_iou a b > thr ∧ b.cls = a.cls)) ∧
        (¬(batch_iou b a > thr ∧ a.cls = b.cls))) := by
    apply keptRows_pairwise
    intro a b hab hb h1 h2
    have ha : a < ps.length := lt_trans hab hb
    constructor
    · exact survivors_pairwise_values ps thr (Nat.ne_of_lt hab) ha hb h1 h2
    · exact survivors_pairwise_values ps thr (Ne.symm (Nat.ne_of_lt hab)) hb
        ha h2 h1
  have hR : ∀ v ∈ keptRows ps (non_max_suppression ps thr),
      ¬(batch_iou v v - 1 > thr) := by
    intro v hv
    obtain ⟨a, h1, h2, h3⟩ := keptRows_mem ps (non_max_suppression ps thr) v hv
    rw [← h3]
    exact survivors_self_values ps thr h1 h2
  have hno : ∀ i j, i < (keptRows ps (non_max_suppression ps thr)).length →
      j < (keptRows ps (non_max_suppression ps thr)).length →
      nms_condb (sortedPred (keptRows ps (non_max_suppression ps thr))) thr
        i j = false := by
    intro i j hi hj
    have hisi : i < (argsort_desc ((keptRows ps
        (non_max_suppression ps thr)).map PredRow.conf)).length := by
      rwa [si_length_eq]
    have hjsi : j < (argsort_desc ((keptRows ps
        (non_max_suppression ps thr)).map PredRow.conf)).length := by
      rwa [si_length_eq]
    have hu := si_getD_lt (keptRows ps (non_max_suppression ps thr)) hisi
    have hv := si_getD_lt (keptRows ps (non_max_suppression ps thr)) hjsi
    by_cases hij : i = j
    · subst hij
      have hmem : (keptRows ps (non_max_suppression ps thr)).getD
          ((argsort_desc ((keptRows ps (non_max_suppression ps thr)).map
            PredRow.conf)).getD i 0) default ∈
          keptRows ps (non_max_suppression ps thr) := by
        rw [List.getD_eq_getElem _ default hu]
        exact List.getElem_mem _
      have hself := hR _ hmem
      have heq : sortedPred (keptRows ps (non_max_suppression ps thr)) i =
          (keptRows ps (non_max_suppression ps thr)).getD
            ((argsort_desc ((keptRows ps (non_max_suppression ps thr)).map
              PredRow.conf)).getD i 0) default := rfl
      unfold nms_condb
      rw [if_pos rfl, heq, decide_eq_false hself, Bool.false_and]
    · have huv : (argsort_desc ((keptRows ps (non_max_suppression ps
          thr)).map PredRow.conf)).getD i 0 ≠
          (argsort_desc ((keptRows ps (non_max_suppression ps thr)).map
            PredRow.conf)).getD j 0 := by
        intro h
        apply hij
        rw [← indexOf_si_getD (keptRows ps (non_max_suppression ps thr)) hisi,
          ← indexOf_si_getD (keptRows ps (non_max_suppression ps thr)) hjsi, h]
      have hkey : ¬(batch_iou
          (sortedPred (keptRows ps (non_max_suppression ps thr)) i)
          (sortedPred (keptRows ps (non_max_suppression ps thr)) j) > thr ∧
          (sortedPred (keptRows ps (non_max_suppression ps thr)) j).cls =
          (sortedPred (keptRows ps (non_max_suppression ps thr)) i).cls) := by
        rcases lt_or_gt_of_ne huv with hlt | hgt
        · exact (pairwise_getD hQ hv hlt).1
        · exact (pairwise_getD hQ hu hgt).2
      simp only [nms_condb, if_neg hij, sub_zero]
      simp only [Bool.and_eq_false_iff, decide_eq_false_iff_not]
      by_cases h1 : batch_iou
          (sortedPred (keptRows ps (non_max_suppression ps thr)) i)
          (sortedPred (keptRows ps (non_max_suppression ps thr)) j) > thr
      · right
        intro h2
        exact hkey ⟨h1, h2⟩
      · left
        exact h1
  have hall := nms_keep_all_of_no_cond
    (sortedPred (keptRows ps (non_max_suppression ps thr))) thr hno
    (keptRows ps (non_max_suppression ps thr)).length (le_refl _)
  apply List.eq_replicate_iff.2
  refine ⟨by rw [non_max_suppression_length], ?_⟩
  intro b hb
  simp only [non_max_suppression, List.mem_map, List.mem_range] at hb
  obtain ⟨i, hi, rfl⟩ := hb
  have hidx := indexOf_lt_of_lt (keptRows ps (non_max_suppression ps thr)) hi
  rw [si_length_eq] at hidx
  exact hall _ hidx

/-- C5 (divergence witness): `detect` unpacks `image.shape[:2]` — which is
`(height, width)` — as `original_im_width, original_im_height`, so for a tile
of width 100 and height 200 with 640×640 model input, a backend box corner at
(640, 640) is rescaled to x = 640·(200/640) = 200 (the HEIGHT-derived scalar)
and y = 640·(100/640) = 100, whereas the claimed rescale to the tile's true
pixel size would give x = 640·(100/640) = 100 and y = 640·(200/640) = 200. -/
theorem c5_detect_rescale_swaps_width_and_height :
    detect_rescale ⟨200, 100⟩ [⟨640, 640, 640, 640, 1, 0⟩] 640 640 =
      [⟨200, 100, 200, 100, 1, 0⟩] ∧
    (200 : ℚ) ≠ 640 * ((100 : ℚ) / 640) ∧
    (100 : ℚ) ≠ 640 * ((200 : ℚ) / 640) := by
  refine ⟨by with_unfolding_all rfl, ?_, ?_⟩ <;> norm_num

/-- C6 (divergence witness): constructing the detector with
`lazy_loading=True` indeed leaves the weights unloaded, but EVERY invocation
of `__call__` — first or later, lazy or not — raises
`NameError: name 'model_is_loaded' is not defined`, because the guard
`if not model_is_loaded:` refers to a bare name instead of the
`self.model_is_loaded` attribute; no call ever loads the weights or returns
detections. -/
theorem c6_call_always_raises_name_error (weights : String)
    (input_im_width input_im_height : Nat) (lazy_loading : Bool)
    (backend : PyImage → List Detection) (images : List PyImage) :
    (yolo11_init weights input_im_width input_im_height true).model_is_loaded
        = false ∧
    yolo11_call (yolo11_init weights input_im_width input_im_height
        lazy_loading) backend images =
      Except.error (PyErr.nameError "model_is_loaded") := by
  constructor
  · rfl
  · with_unfolding_all rfl

/-- C7: for a nonnegative `tile_size_proportion` p, `compute_tile_size`
returns `int(min(w, h) * p)`: the code's `int(min(w*p, h*p))` agrees with the
minimum image dimension scaled by p and truncated to an integer. -/
theorem c7_compute_tile_size_eq (p : ℚ) (w h : Nat) (hp : 0 ≤ p) :
    compute_tile_size p (w, h) = rat_int_trunc (((min w h : Nat) : ℚ) * p) := by
  unfold compute_tile_size
  congr 1
  rcases le_total (w : ℚ) (h : ℚ) with hwh | hwh
  · rw [min_eq_left (mul_le_mul_of_nonneg_right hwh hp)]
    have : (min w h : Nat) = w := by
      rw [Nat.min_eq_left (by exact_mod_cast hwh)]
    rw [this]
  · rw [min_eq_right (mul_le_mul_of_nonneg_right hwh hp)]
    have : (min w h : Nat) = h := by
      rw [Nat.min_eq_right (by exact_mod_cast hwh)]
    rw [this]

/-- C7 witness: proportion 1/2 on a 5×3 image gives tile size
`int(min(5,3)·1/2) = int(1.5) = 1`. -/
theorem c7_witness :
    (0 : ℚ) ≤ 1 / 2 ∧
    compute_tile_size (1/2) (5, 3) = rat_int_trunc (((min 5 3 : Nat) : ℚ) * (1/2)) ∧
    compute_tile_size (1/2) (5, 3) = 1 :=
  ⟨by norm_num, c7_compute_tile_size_eq (1/2) 5 3 (by norm_num),
   by with_unfolding_all rfl⟩

/-- C9: constructing a `BoundingBox` with `left > right` or `top > bottom` is
a `ValueError`; with `left ≤ right` and `top ≤ bottom` construction succeeds,
and when the box is degenerate (`left = right` or `top = bottom`, including
fully collapsed) it succeeds with a nonempty warning list, never an error. -/
theorem c9_bounding_box_validation (category : String) (l t r b : ℚ) :
    ((l > r ∨ t > b) →
      ∃ msg, BoundingBox.make category l t r b =
        Except.error (PyErr.valueError msg)) ∧
    (l ≤ r → t ≤ b →
      ∃ bw, BoundingBox.make category l t r b = Except.ok bw ∧
        ((l = r ∨ t = b) → bw.2 ≠ [])) := by
  constructor
  · intro hbad
    unfold BoundingBox.make validate_box_values
    rcases hbad with hlr | htb
    · rw [if_pos hlr]
      exact ⟨_, rfl⟩
    · by_cases hlr : l > r
      · rw [if_pos hlr]
        exact ⟨_, rfl⟩
      · rw [if_neg hlr, if_pos htb]
        exact ⟨_, rfl⟩
  · intro hlr htb
    unfold BoundingBox.make validate_box_values
    rw [if_neg (not_lt.2 hlr), if_neg (not_lt.2 htb)]
    by_cases hall : l = r ∧ l = t ∧ l = b
    · rw [if_pos hall]
      exact ⟨_, rfl, fun _ => by simp⟩
    · rw [if_neg hall]
      refine ⟨_, rfl, ?_⟩
      rintro (hdeg | hdeg) <;> simp [hdeg]

/-- C9 witness: `BoundingBox("Test", 1, 0, 0, 1)` (left 1 > right 0) raises a
`ValueError`, and the degenerate `BoundingBox("Test", 0, 0, 0, 1)`
(left = right) succeeds with a nonempty warning list. -/
theorem c9_witness :
    (∃ msg, BoundingBox.make "Test" 1 0 0 1 =
      Except.error (PyErr.valueError msg)) ∧
    (∃ bw, BoundingBox.make "Test" 0 0 0 1 = Except.ok bw ∧ bw.2 ≠ []) := by
  refine ⟨(c9_bounding_box_validation "Test" 1 0 0 1).1
    (Or.inl (by norm_num)), ?_⟩
  obtain ⟨bw, h1, h2⟩ := (c9_bounding_box_validation "Test" 0 0 0 1).2
    (le_refl 0) (by norm_num)
  exact ⟨bw, h1, h2 (Or.inl rfl)⟩

lemma length_le_of_at_most_one_per_key {α β : Type} [DecidableEq β]
    (f : α → β) :
    ∀ (s : List β) (l : List α), s.Nodup →
    (∀ x ∈ l, f x ∈ s) →
    (∀ b ∈ s, (l.filter (fun x => decide (f x = b))).length ≤ 1) →
    l.length ≤ s.length := by
  intro s
  induction s with
  | nil =>
    intro l _ hmem _
    cases l with
    | nil => exact le_refl 0
    | cons x l => exact absurd (hmem x (List.mem_cons_self x l)) (List.not_mem_nil _)
  | cons b s ih =>
    intro l hnodup hmem hone
    have hsplit := List.length_eq_length_filter_add
      (l := l) (fun x => decide (f x = b))
    have hl2 : (l.filter (fun x => !(decide (f x = b)))).length ≤ s.length := by
      apply ih _ hnodup.of_cons
      · intro x hx
        have hxp := List.of_mem_filter hx
        have hxl := List.mem_of_mem_filter hx
        rcases List.mem_cons.1 (hmem x hxl) with h | h
        · exact absurd h (by simpa using hxp)
        · exact h
      · intro c hc
        calc ((l.filter (fun x => !(decide (f x = b)))).filter
              (fun x => decide (f x = c))).length
            ≤ (l.filter (fun x => decide (f x = c))).length :=
              List.Sublist.length_le ((List.filter_sublist _).filter _)
          _ ≤ 1 := hone c (List.mem_cons_of_mem _ hc)
    have hl1 : (l.filter (fun x => decide (f x = b))).length ≤ 1 :=
      hone b (List.mem_cons_self _ _)
    calc l.length
        = (l.filter (fun x => decide (f x = b))).length +
          (l.filter (fun x => !(decide (f x = b)))).length := hsplit
      _ ≤ 1 + s.length := Nat.add_le_add hl1 hl2
      _ = (b :: s).length := by simp [Nat.add_comm]

/-- C2 (spec-modelled `find_homography`): if one of the four required corner
categories has no detection (and no category is detected more than once),
`create_homography_matrix` produces fewer than four source correspondences and
therefore raises `GeometryError` instead of returning a transform. -/
theorem c2_missing_corner_category_geometry_error
    (landmark_detections : List Detection)
    (corner_landmark_names : List String)
    (destination_landmarks : List BoundingBox)
    (hlen : corner_landmark_names.length = 4)
    (hnodup : corner_landmark_names.Nodup)
    (c : String) (hc : c ∈ corner_landmark_names)
    (hmissing : ∀ d ∈ landmark_detections, d.annot.category ≠ c)
    (hone : ∀ nm ∈ corner_landmark_names,
      (landmark_detections.filter
        (fun d => decide (d.annot.category = nm))).length ≤ 1) :
    create_homography_matrix landmark_detections corner_landmark_names
      destination_landmarks = Except.error GeometryError.insufficientCorners := by
  have hfilterlen : (landmark_detections.filter
      (fun x => corner_landmark_names.contains x.annot.category)).length
        ≤ 3 := by
    have hkey := length_le_of_at_most_one_per_key
      (fun d : Detection => d.annot.category)
      (corner_landmark_names.erase c)
      (landmark_detections.filter
        (fun x => corner_landmark_names.contains x.annot.category))
      (hnodup.erase c) ?_ ?_
    · have herase : (corner_landmark_names.erase c).length = 3 := by
        have h1 := List.length_erase_of_mem hc
        omega
      rwa [herase] at hkey
    · intro x hx
      have hxp := List.of_mem_filter hx
      have hxl := List.mem_of_mem_filter hx
      have hxin : x.annot.category ∈ corner_landmark_names := by
        simpa using hxp
      exact (List.mem_erase_of_ne (hmissing x hxl)).2 hxin
    · intro nm hnm
      calc ((landmark_detections.filter
            (fun x => corner_landmark_names.contains x.annot.category)).filter
              (fun d => decide (d.annot.category = nm))).length
          ≤ (landmark_detections.filter
              (fun d => decide (d.annot.category = nm))).length :=
            List.Sublist.length_le ((List.filter_sublist _).filter _)
        _ ≤ 1 := hone nm (List.mem_of_mem_erase hnm)
  have hsrclen : (src_points_of landmark_detections
      corner_landmark_names).length ≤ 3 := by
    unfold src_points_of sorted_src_landmarks
    rw [List.length_map, (List.perm_insertionSort _ _).length_eq]
    exact hfilterlen
  unfold create_homography_matrix find_homography
  rw [if_pos (Or.inl (by omega))]

/-- C2 witness: only three of the four intraoperative corner categories are
detected (one detection each) — `create_homography_matrix` raises
`GeometryError`. -/
theorem c2_witness :
    create_homography_matrix
      [⟨Annot.box ⟨"anesthesia_start", 0, 0, 1, 1⟩, 9/10⟩,
       ⟨Annot.box ⟨"safety_checklist", 10, 0, 11, 1⟩, 9/10⟩,
       ⟨Annot.box ⟨"lateral", 0, 10, 1, 11⟩, 9/10⟩]
      intraop_corner_landmark_names intraop_template_landmarks =
      Except.error GeometryError.insufficientCorners :=
  c2_missing_corner_category_geometry_error _ _ _
    (by with_unfolding_all decide) (by with_unfolding_all decide)
    "units" (by with_unfolding_all decide)
    (by with_unfolding_all decide) (by with_unfolding_all decide)

lemma sorted_src_categories (landmark_detections : List Detection)
    (names : List String) :
    ((sorted_src_landmarks landmark_detections names).map
      Detection.category).Sorted (· ≤ ·) := by
  haveI h1 : IsTotal Detection
      (fun a b => a.annot.category ≤ b.annot.category) :=
    ⟨fun a b => le_total _ _⟩
  haveI h2 : IsTrans Detection
      (fun a b => a.annot.category ≤ b.annot.category) :=
    ⟨fun a b c hab hbc => le_trans hab hbc⟩
  have hs := List.sorted_insertionSort
    (fun a b : Detection => a.annot.category ≤ b.annot.category)
    (landmark_detections.filter
      (fun x => names.contains x.annot.category))
  exact (List.pairwise_map).2 hs

lemma sorted_dest_categories (destination_landmarks : List BoundingBox)
    (names : List String) :
    ((sorted_dest_landmarks destination_landmarks names).map
      BoundingBox.category).Sorted (· ≤ ·) := by
  haveI h1 : IsTotal BoundingBox (fun a b => a.category ≤ b.category) :=
    ⟨fun a b => le_total _ _⟩
  haveI h2 : IsTrans BoundingBox (fun a b => a.category ≤ b.category) :=
    ⟨fun a b c hab hbc => le_trans hab hbc⟩
  have hs := List.sorted_insertionSort
    (fun a b : BoundingBox => a.category ≤ b.category)
    (destination_landmarks.filter (fun x => names.contains x.category))
  exact (List.pairwise_map).2 hs

/-- C8: with exactly one detection per corner category and exactly one
template box per corner category (stated as: the filtered category lists are
permutations of the four names), `create_homography_matrix` builds two point
lists of equal length four, each sorted by category name, positionally
corresponding — the i-th source landmark and the i-th destination landmark
have the same category — and hands exactly these two center lists to the
homography solve. -/
theorem c8_corner_lists_sorted_and_corresponding
    (landmark_detections : List Detection)
    (destination_landmarks : List BoundingBox) (names : List String)
    (hlen : names.length = 4)
    (hsrc : List.Perm ((landmark_detections.filter
      (fun x => names.contains x.annot.category)).map Detection.category)
      names)
    (hdst : List.Perm ((destination_landmarks.filter
      (fun x => names.contains x.category)).map BoundingBox.category) names) :
    (src_points_of landmark_detections names).length = 4 ∧
    (dest_points_of destination_landmarks names).length = 4 ∧
    ((sorted_src_landmarks landmark_detections names).map
      Detection.category).Sorted (· ≤ ·) ∧
    ((sorted_dest_landmarks destination_landmarks names).map
      BoundingBox.category).Sorted (· ≤ ·) ∧
    (sorted_src_landmarks landmark_detections names).map Detection.category =
      (sorted_dest_landmarks destination_landmarks names).map
        BoundingBox.category ∧
    create_homography_matrix landmark_detections names destination_landmarks =
      Except.ok (src_points_of landmark_detections names,
        dest_points_of destination_landmarks names) := by
  have hpermsrc : List.Perm ((sorted_src_landmarks landmark_detections
      names).map Detection.category) names :=
    (List.Perm.map _ (List.perm_insertionSort _ _)).trans hsrc
  have hpermdst : List.Perm ((sorted_dest_landmarks destination_landmarks
      names).map BoundingBox.category) names :=
    (List.Perm.map _ (List.perm_insertionSort _ _)).trans hdst
  have hs1 := sorted_src_categories landmark_detections names
  have hs2 := sorted_dest_categories destination_landmarks names
  have hlensrc : (src_points_of landmark_detections names).length = 4 := by
    unfold src_points_of
    rw [List.length_map]
    have := hpermsrc.length_eq
    rw [List.length_map] at this
    rw [this, hlen]
  have hlendst : (dest_points_of destination_landmarks names).length = 4 := by
    unfold dest_points_of
    rw [List.length_map]
    have := hpermdst.length_eq
    rw [List.length_map] at this
    rw [this, hlen]
  refine ⟨hlensrc, hlendst, hs1, hs2,
    List.eq_of_perm_of_sorted (hpermsrc.trans hpermdst.symm) hs1 hs2, ?_⟩
  unfold create_homography_matrix find_homography
  rw [if_neg]
  push_neg
  constructor <;> omega

/-- C8 witness: four detections and four template boxes, one per corner name,
validate the hypotheses; the sorted category lists coincide. -/
theorem c8_witness :
    (["a", "b", "c", "d"] : List String).length = 4 ∧
    List.Perm (([⟨Annot.box ⟨"b", 0, 0, 1, 1⟩, 9/10⟩,
        ⟨Annot.box ⟨"a", 2, 0, 3, 1⟩, 9/10⟩,
        ⟨Annot.box ⟨"d", 0, 2, 1, 3⟩, 9/10⟩,
        ⟨Annot.box ⟨"z", 5, 5, 6, 6⟩, 9/10⟩,
        ⟨Annot.box ⟨"c", 2, 2, 3, 3⟩, 9/10⟩] : List Detection).filter
        (fun x => (["a", "b", "c", "d"] : List String).contains
          x.annot.category) |>.map Detection.category)
      ["a", "b", "c", "d"] ∧
    List.Perm (([⟨"d", 0, 0, 1, 1⟩, ⟨"c", 2, 0, 3, 1⟩, ⟨"b", 0, 2, 1, 3⟩,
        ⟨"a", 2, 2, 3, 3⟩] : List BoundingBox).filter
        (fun x => (["a", "b", "c", "d"] : List String).contains x.category)
        |>.map BoundingBox.category)
      ["a", "b", "c", "d"] ∧
    (sorted_src_landmarks
        [⟨Annot.box ⟨"b", 0, 0, 1, 1⟩, 9/10⟩,
         ⟨Annot.box ⟨"a", 2, 0, 3, 1⟩, 9/10⟩,
         ⟨Annot.box ⟨"d", 0, 2, 1, 3⟩, 9/10⟩,
         ⟨Annot.box ⟨"z", 5, 5, 6, 6⟩, 9/10⟩,
         ⟨Annot.box ⟨"c", 2, 2, 3, 3⟩, 9/10⟩]
        ["a", "b", "c", "d"]).map Detection.category =
      (sorted_dest_landmarks
        [⟨"d", 0, 0, 1, 1⟩, ⟨"c", 2, 0, 3, 1⟩, ⟨"b", 0, 2, 1, 3⟩,
         ⟨"a", 2, 2, 3, 3⟩]
        ["a", "b", "c", "d"]).map BoundingBox.category := by
  refine ⟨by with_unfolding_all decide, by with_unfolding_all decide,
    by with_unfolding_all decide, ?_⟩
  exact (c8_corner_lists_sorted_and_corresponding _ _ _
    (by with_unfolding_all decide) (by with_unfolding_all decide)
    (by with_unfolding_all decide)).2.2.2.2.1

/-- C1 (divergence witness): on an intraoperative detections dict where the
"numbers" model produced an empty list (all other models nonempty, all four
corner landmarks present), `assign_meaning_to_intraoperative_detections`
raises `KeyError('numbers')` instead of returning a record with only the
number-derived fields missing: the `corrected_detections_dict` loop skips
empty lists, and the later `corrected_detections_dict["numbers"]` access
fails. -/
theorem c1_empty_numbers_raises_key_error :
    assign_meaning_to_intraoperative_detections
      [("landmarks",
        [⟨Annot.box ⟨"anesthesia_start", 0, 0, 1, 1⟩, 9/10⟩,
         ⟨Annot.box ⟨"safety_checklist", 10, 0, 11, 1⟩, 9/10⟩,
         ⟨Annot.box ⟨"lateral", 0, 10, 1, 11⟩, 9/10⟩,
         ⟨Annot.box ⟨"units", 10, 10, 11, 11⟩, 9/10⟩]),
       ("numbers", []),
       ("checkboxes", [⟨Annot.box ⟨"checkbox", 0, 0, 1, 1⟩, 9/10⟩]),
       ("systolic",
        [⟨Annot.keypoint ⟨0, 0⟩ ⟨"systolic", 0, 0, 1, 1⟩, 9/10⟩]),
       ("diastolic",
        [⟨Annot.keypoint ⟨0, 0⟩ ⟨"diastolic", 0, 0, 1, 1⟩, 9/10⟩]),
       ("heart_rate",
        [⟨Annot.keypoint ⟨0, 0⟩ ⟨"heart_rate", 0, 0, 1, 1⟩, 9/10⟩])] =
      Except.error (PyErr.keyError "numbers") := by
  with_unfolding_all rfl

end ChartExtractor
